import Mathlib

/-!
# Verification of the Timed Media Composition Engine

A shallow embedding of the manga-video composition core
(`src/core/effects.py` and `src/core/video.py`) together with proofs about
its timeline arithmetic, caption text processing, timestamp formatting,
effect-parameter invariants, cleanup policy and audio-mixing branch logic.

Modelling conventions:
* Python floats are modelled as rationals (`ℚ`); Python `int(x)` is
  truncation toward zero, `x // y` is floor division, `x % y` for a positive
  divisor returns a value in `[0, y)`.
* Outcomes of external `ffmpeg` subprocess invocations are oracle booleans
  carried in the state (`renderOk`, `concatOk`, ...): the Python code only
  branches on the process exit status.
* Python strings are modelled as `List Char` (`String.data`) where character
  level reasoning is needed.
-/

/-- Python `int(x)` applied to a real quantity: truncation toward zero. -/
def pyTrunc (q : ℚ) : ℤ := if 0 ≤ q then ⌊q⌋ else ⌈q⌉

/-- Modelled from the spec: Python `round(x)` to the nearest integer with
ties going to the even integer (banker's rounding), as required by the
spec's `round(startOffsetSeconds * 1000)` formula.  The repository's code
never calls `round`; this definition exists only to compare the spec's
formula with the code's `int(...)` truncation. -/
def pyRoundEven (q : ℚ) : ℤ :=
  if q - ⌊q⌋ < 1/2 then ⌊q⌋
  else if 1/2 < q - ⌊q⌋ then ⌊q⌋ + 1
  else if ⌊q⌋ % 2 = 0 then ⌊q⌋ else ⌊q⌋ + 1

/-- Python `a % m` for floats with a positive modulus `m`: the representative
of `a` in `[0, m)`. -/
def fmodQ (q m : ℚ) : ℚ := q - m * ⌊q / m⌋

/-! ## Effect Parameter Generator (`src/core/effects.py`, `generate_ken_burns`)

The `"random"` style is resolved by `random.choice` among the four concrete
styles before any parameter is drawn, so the embedding takes the resolved
style as an argument.  The two `random.uniform(-0.05, 0.05)` draws used by
the zoom styles are passed in explicitly as `jx`, `jy`. -/

inductive KBStyle where
  | zoomIn
  | zoomOut
  | panLeft
  | panRight
deriving DecidableEq, Repr

/-- `KenBurnsEffect` dataclass of `effects.py`. -/
structure KenBurnsEffect where
  start_zoom : ℚ
  end_zoom : ℚ
  start_x : ℚ
  start_y : ℚ
  end_x : ℚ
  end_y : ℚ
  duration : ℚ
deriving DecidableEq, Repr

/-- `generate_ken_burns` of `effects.py` with the random draws made explicit:
`center = 0.5`, `zoom_min = 1.0`, `zoom_max = 1.2`, `pan_offset = 0.1`. -/
def generate_ken_burns (duration : ℚ) (style : KBStyle) (jx jy : ℚ) :
    KenBurnsEffect :=
  match style with
  | .zoomIn =>
    { start_zoom := 1, end_zoom := 6/5
      start_x := 1/2 + jx, start_y := 1/2 + jy
      end_x := 1/2, end_y := 1/2, duration := duration }
  | .zoomOut =>
    { start_zoom := 6/5, end_zoom := 1
      start_x := 1/2, start_y := 1/2
      end_x := 1/2 + jx, end_y := 1/2 + jy, duration := duration }
  | .panLeft =>
    { start_zoom := (6/5) * (19/20), end_zoom := (6/5) * (19/20)
      start_x := 1/2 + 1/10, start_y := 1/2
      end_x := 1/2 - 1/10, end_y := 1/2, duration := duration }
  | .panRight =>
    { start_zoom := (6/5) * (19/20), end_zoom := (6/5) * (19/20)
      start_x := 1/2 - 1/10, start_y := 1/2
      end_x := 1/2 + 1/10, end_y := 1/2, duration := duration }

/-! ## Caption text wrapping (`src/core/effects.py`, `wrap_text`)

Python strings are modelled as `List Char`.  `text.split()` splits on runs
of whitespace discarding empties; `" ".join` / `"\\N".join` are the two join
operations used. -/

/-- A word: a chunk of characters produced by `str.split()`. -/
abbrev Word := List Char

/-- Worker for Python `str.split()`: `acc` holds the current word reversed. -/
def splitWS : List Char → Word → List Word
  | [], acc => if acc.isEmpty then [] else [acc.reverse]
  | c :: cs, acc =>
    if c.isWhitespace then
      if acc.isEmpty then splitWS cs [] else acc.reverse :: splitWS cs []
    else splitWS cs (c :: acc)

/-- Python `text.split()` (no separator argument). -/
def pyWords (s : List Char) : List Word := splitWS s []

/-- Python `" ".join(ws)`. -/
def joinSpace : List Word → Word
  | [] => []
  | [w] => w
  | w :: ws => w ++ ' ' :: joinSpace ws

/-- Python `"\\N".join(ws)` — the join on the ASS line-break marker, which
is the two characters backslash and `N`. -/
def joinN : List Word → Word
  | [] => []
  | [w] => w
  | w :: ws => w ++ '\\' :: 'N' :: joinN ws

/-- The loop state of `wrap_text`: accumulated `lines`, the `current_line`
word list, and the running `current_length` counter. -/
structure WrapSt where
  lines : List Word
  current : List Word
  length : ℕ
deriving Repr

/-- One iteration of the `for word in words` loop of `wrap_text`. -/
def wrapStep (maxChars : ℕ) (st : WrapSt) (w : Word) : WrapSt :=
  if st.length + w.length + (if st.current.isEmpty then 0 else 1) ≤ maxChars then
    let cur := st.current ++ [w]
    { lines := st.lines, current := cur
      length := st.length + w.length + (if 1 < cur.length then 1 else 0) }
  else
    { lines := st.lines ++ (if st.current.isEmpty then [] else [joinSpace st.current])
      current := [w], length := w.length }

/-- The greedy word-wrap of `wrap_text` before the 2-line merge: the loop
over all words followed by flushing the final `current_line`. -/
def wrapLines (words : List Word) (maxChars : ℕ) : List Word :=
  let st := words.foldl (wrapStep maxChars) ⟨[], [], 0⟩
  st.lines ++ (if st.current.isEmpty then [] else [joinSpace st.current])

/-- `wrap_text` of `effects.py` on character lists: greedy wrap, then if more
than 2 lines result, merge into `[" ".join(lines[:mid+1]), " ".join(lines[mid+1:])]`
with `mid = len(lines) // 2`, and finally join the lines with `"\\N"`. -/
def wrapTextL (s : List Char) (maxChars : ℕ) : List Char :=
  let lines := wrapLines (pyWords s) maxChars
  let lines2 :=
    if 2 < lines.length then
      [joinSpace (lines.take (lines.length / 2 + 1)),
       joinSpace (lines.drop (lines.length / 2 + 1))]
    else lines
  joinN lines2

/-- `wrap_text` at the `String` level (default `max_chars = 42`). -/
def wrap_text (s : String) (maxChars : ℕ := 42) : String :=
  ⟨wrapTextL s.data maxChars⟩

/-- Modelled from the spec: the merge rule as the spec words it — "splitting
the wrapped-line list at its midpoint", the first output line joining the
first half `lines[:mid]` and the second the remaining half `lines[mid:]`
with `mid = len(lines) // 2`.  Used only to compare the spec's midpoint rule
with the code's `mid+1` split. -/
def midpointWrapSpec (s : List Char) (maxChars : ℕ) : List Char :=
  let lines := wrapLines (pyWords s) maxChars
  let lines2 :=
    if 2 < lines.length then
      [joinSpace (lines.take (lines.length / 2)),
       joinSpace (lines.drop (lines.length / 2))]
    else lines
  joinN lines2

/-! ## Timestamp formatting (`src/core/effects.py`, `format_time_ass`) -/

/-- `hours = int(seconds // 3600)`. -/
def hoursI (s : ℚ) : ℤ := ⌊s / 3600⌋

/-- `minutes = int((seconds % 3600) // 60)`. -/
def minutesI (s : ℚ) : ℤ := ⌊fmodQ s 3600 / 60⌋

/-- `secs = int(seconds % 60)`. -/
def secsI (s : ℚ) : ℤ := pyTrunc (fmodQ s 60)

/-- `centis = int((seconds % 1) * 100)`. -/
def centisI (s : ℚ) : ℤ := pyTrunc (fmodQ s 1 * 100)

/-- Python `f"{n:02d}"`: left-pad with `0` to width 2. -/
def pad2 (n : ℤ) : String :=
  if 0 ≤ n ∧ n < 10 then "0" ++ toString n else toString n

/-- `format_time_ass` of `effects.py`:
`f"{hours}:{minutes:02d}:{secs:02d}.{centis:02d}"`. -/
def format_time_ass (s : ℚ) : String :=
  toString (hoursI s) ++ ":" ++ pad2 (minutesI s) ++ ":" ++ pad2 (secsI s)
    ++ "." ++ pad2 (centisI s)

/-! ## Page descriptors and the build timeline (`src/core/video.py`)

A `Page` is one entry of `pages_data`.  `renderOk` is the oracle outcome of
the `create_clip_from_image` ffmpeg call for this page; `audioExists` is the
oracle outcome of `Path(narration_audio).exists()`. -/

structure Page where
  suggested_duration : Option ℚ
  narration : String
  narration_audio : Option String
  renderOk : Bool
  audioExists : Bool
deriving DecidableEq, Repr

/-- `DEFAULT_PAGE_DURATION` from `config/settings.py`. -/
def defaultPageDuration : ℚ := 4

/-- `page.get("suggested_duration", DEFAULT_PAGE_DURATION)`. -/
def pageDuration (p : Page) : ℚ := p.suggested_duration.getD defaultPageDuration

/-- One entry of `all_dialogues` in `build_manga_video`
(`{"start": ..., "end": ..., "text": ...}`; `stop` stands for the `"end"`
key, which is a Lean keyword). -/
structure Dialogue where
  start : ℚ
  stop : ℚ
  text : String
deriving DecidableEq, Repr

/-- The dialogue-collection loop of `build_manga_video` (lines 399-428):
starting from clock `t`, a page that renders successfully contributes a
dialogue event when its narration text is non-empty and advances the clock
by its duration; a failed render contributes nothing and leaves the clock
unchanged. -/
def collectDialogues : List Page → ℚ → List Dialogue
  | [], _ => []
  | p :: ps, t =>
    if p.renderOk then
      (if p.narration = "" then []
       else [⟨t, t + pageDuration p, p.narration⟩])
        ++ collectDialogues ps (t + pageDuration p)
    else collectDialogues ps t

/-- Sum of the durations of pages `0..n-1` (zero-based). -/
def durBefore (pages : List Page) (n : ℕ) : ℚ :=
  ((pages.take n).map pageDuration).sum

/-- Modelled from the spec: the DialogueEvent list as §3/§8 of the spec
describe it — one event per page with non-empty narration text, the event of
page `n` starting at `sum(duration[0..n-1])` and ending `duration[n]`
later.  Used to compare the spec's formula with the code's loop. -/
def dialogueEventsSpec (pages : List Page) : List Dialogue :=
  (List.range pages.length).filterMap fun n =>
    match pages.get? n with
    | some p =>
      if p.narration = "" then none
      else some ⟨durBefore pages n, durBefore pages n + pageDuration p,
                 p.narration⟩
    | none => none

/-! ## Narration plan (`create_narration_track`, lines 171-208) -/

/-- Python truthiness of `page.get("narration_audio")`: a present, non-empty
path string. -/
def audioTruthy (p : Page) : Bool :=
  match p.narration_audio with
  | some f => !(f = "")
  | none => false

/-- One entry of the `narrations` list of `create_narration_track`
(`{"file": ..., "start": ...}`; the `"duration"` key is never read
afterwards and is omitted). -/
structure NarrEntry where
  file : String
  start : ℚ
deriving DecidableEq, Repr

/-- The collection loop of `create_narration_track` (lines 171-186): a page
whose `narration_audio` is truthy and exists on disk contributes an entry at
the current clock; the clock advances by the page duration for EVERY page,
whether or not it contributed an entry and whether or not its clip rendered. -/
def narrationPlan : List Page → ℚ → List NarrEntry
  | [], _ => []
  | p :: ps, t =>
    (match p.narration_audio with
     | some f => if !(f = "") && p.audioExists then [⟨f, t⟩] else []
     | none => [])
      ++ narrationPlan ps (t + pageDuration p)

/-- `delay_ms = int(narr["start"] * 1000)` (line 198). -/
def delayMs (start : ℚ) : ℤ := pyTrunc (start * 1000)

/-- The per-segment filter fragment of `create_narration_track` (line 200):
`f"[{i}:a]adelay={delay_ms}|{delay_ms},volume={NARRATION_VOLUME}[a{i}]"`
with `NARRATION_VOLUME = 1.0`. -/
def narrationFilterPart (i : ℕ) (e : NarrEntry) : String :=
  "[" ++ toString i ++ ":a]adelay=" ++ toString (delayMs e.start) ++ "|"
    ++ toString (delayMs e.start) ++ ",volume=1.0[a" ++ toString i ++ "]"

/-! ## Audio mixing branch logic (`add_audio_tracks`, lines 233-325) -/

/-- The action `add_audio_tracks` takes, determined by on-disk existence of
the two optional audio files: plain copy, combined narration+ducked-music
mix, narration-only mux, or looped-music-only mix. -/
inductive AudioAction where
  | copyVideo
  | mixBoth (narration music : String) (musicVolWithNarration : ℚ)
  | narrationOnly (narration : String)
  | musicOnly (music : String) (musicVol : ℚ)
deriving DecidableEq, Repr

/-- `add_audio_tracks` of `video.py`: `has_narration`/`has_music` are the
Python truthiness-and-`exists()` checks (lines 258-259); `pathExists` is the
oracle for `Path.exists()`.  The branch structure follows lines 261-316. -/
def add_audio_tracks (pathExists : String → Bool)
    (narration_path music_path : Option String)
    (music_volume music_volume_with_narration : ℚ) : AudioAction :=
  let has_narration :=
    match narration_path with
    | some p => pathExists p
    | none => false
  let has_music :=
    match music_path with
    | some p => pathExists p
    | none => false
  if !has_narration && !has_music then .copyVideo
  else if has_narration && has_music then
    .mixBoth (narration_path.getD "") (music_path.getD "")
      music_volume_with_narration
  else if has_narration then .narrationOnly (narration_path.getD "")
  else .musicOnly (music_path.getD "") music_volume

/-- Whether `add_audio_tracks` reports success: the copy branch returns
`True` unconditionally, every other branch returns the ffmpeg exit status. -/
def audioSuccess (a : AudioAction) (ffmpegOk : Bool) : Bool :=
  match a with
  | .copyVideo => true
  | _ => ffmpegOk

/-! ## Build orchestration and cleanup (`build_manga_video`, lines 375-503)

The files the build creates or deletes in the output directory.  `clip i` is
`clip_{i:03d}.mp4`, `concatTemp` is `concat_temp.mp4`, `subsFile` is
`subtitles.ass`, `subsVideo` is `with_subs.mp4`, `narrTrack` is
`narration_combined.aac`, `pageAudio i` is page `i`'s per-page narration
file in `output/narration/`, and `finalVideo` is the requested output name. -/

inductive Artifact where
  | clip (i : ℕ)
  | concatTemp
  | subsFile
  | subsVideo
  | narrTrack
  | pageAudio (i : ℕ)
  | finalVideo
deriving DecidableEq, Repr

/-- Oracle outcomes of the four ffmpeg stages after clip rendering:
concatenation, subtitle burn-in, narration-track creation, and the final
audio mix. -/
structure BuildEnv where
  concatOk : Bool
  subsOk : Bool
  narrOk : Bool
  mixOk : Bool
deriving DecidableEq, Repr

/-- The clip files created by the rendering loop: one per page whose
`create_clip_from_image` call succeeded, named by page index. -/
def clipFiles (pages : List Page) : List Artifact :=
  (pages.enum.filter (fun x => x.2.renderOk)).map (fun x => Artifact.clip x.1)

/-- The per-page narration audio files present on disk when the build
starts (created earlier by the TTS stage): pages with a truthy
`narration_audio` that exists. -/
def pageAudioFiles (pages : List Page) : List Artifact :=
  (pages.enum.filter (fun x => audioTruthy x.2 && x.2.audioExists)).map
    (fun x => Artifact.pageAudio x.1)

/-- Whether step 4 produces a combined narration track file:
`any(p.get("narration_audio") for p in pages_data)` must hold, the
`narrations` list inside `create_narration_track` must be non-empty, and the
track-building ffmpeg call must succeed. -/
def hasTrack (pages : List Page) (env : BuildEnv) : Bool :=
  pages.any audioTruthy && !(narrationPlan pages 0).isEmpty && env.narrOk

/-- Whether the `add_audio_tracks` call of step 5 reports success: with no
narration track and no (existing) music file it is a plain copy and always
succeeds; otherwise it is the ffmpeg mix outcome. -/
def mixCallOk (pages : List Page) (env : BuildEnv) (hasMusic : Bool) : Bool :=
  (!hasTrack pages env && !hasMusic) || env.mixOk

/-- All files of the build universe present just before step 5 (the audio
mix), given that concatenation succeeded: the pre-existing per-page
narration audio, the rendered clips, the concat temp, the caption artifacts
when there are dialogues (the `.ass` file is always written; `with_subs.mp4`
only when the burn-in succeeded), and the combined narration track when it
was built. -/
def preMixFiles (pages : List Page) (env : BuildEnv) : List Artifact :=
  pageAudioFiles pages ++ clipFiles pages ++ [Artifact.concatTemp]
    ++ (if !(collectDialogues pages 0).isEmpty then [Artifact.subsFile] else [])
    ++ (if !(collectDialogues pages 0).isEmpty && env.subsOk then
          [Artifact.subsVideo] else [])
    ++ (if hasTrack pages env then [Artifact.narrTrack] else [])

/-- The `current_video` pointer at step 5: the captioned video when captions
were burned in successfully, else the concat temp. -/
def currentVideo (pages : List Page) (env : BuildEnv) : Artifact :=
  if !(collectDialogues pages 0).isEmpty && env.subsOk then Artifact.subsVideo
  else Artifact.concatTemp

/-- Deleted on the successful-mix exit path (lines 477-484): the clip files,
`concat_temp.mp4`, `with_subs.mp4`, `subtitles.ass`, the combined narration
track, and every per-page narration file — everything except the final
video. -/
def removedOnSuccess : Artifact → Bool
  | .finalVideo => false
  | _ => true

/-- Deleted on the mix-failure exit path (line 491): only the clips,
`concat_temp.mp4`, `with_subs.mp4` and `subtitles.ass`; the narration track
and the per-page narration files are NOT in this cleanup list. -/
def removedOnFail : Artifact → Bool
  | .clip _ => true
  | .concatTemp => true
  | .subsVideo => true
  | .subsFile => true
  | _ => false

/-- `build_manga_video` as a file-state machine: returns the function's
result (`None` or the final path) paired with the files of the build
universe still on disk at the return.  The two fatal `return None` paths
(zero clips, concat failure) run no cleanup at all; the successful-mix path
deletes everything but the final video; the mix-failure path renames
`current_video` to the final name and runs the smaller cleanup list. -/
def buildResult (pages : List Page) (env : BuildEnv) (hasMusic : Bool) :
    Option Artifact × List Artifact :=
  if (clipFiles pages).isEmpty then
    (none, pageAudioFiles pages ++ clipFiles pages)
  else if !env.concatOk then
    (none, pageAudioFiles pages ++ clipFiles pages)
  else if mixCallOk pages env hasMusic then
    (some Artifact.finalVideo,
     (preMixFiles pages env ++ [Artifact.finalVideo]).filter
       (fun a => !removedOnSuccess a))
  else
    (some Artifact.finalVideo,
     (((preMixFiles pages env).filter (fun a => !(a = currentVideo pages env)))
         ++ [Artifact.finalVideo]).filter (fun a => !removedOnFail a))

/-! ## Helper lemmas -/

lemma fmodQ_eq_mul_fract (q : ℚ) {m : ℚ} (hm : m ≠ 0) :
    fmodQ q m = m * Int.fract (q / m) := by
  unfold fmodQ Int.fract
  rw [mul_sub, mul_div_cancel₀ _ hm]

lemma fmodQ_nonneg (q : ℚ) {m : ℚ} (hm : 0 < m) : 0 ≤ fmodQ q m := by
  rw [fmodQ_eq_mul_fract q hm.ne']
  exact mul_nonneg hm.le (Int.fract_nonneg _)

lemma fmodQ_lt (q : ℚ) {m : ℚ} (hm : 0 < m) : fmodQ q m < m := by
  rw [fmodQ_eq_mul_fract q hm.ne']
  calc m * Int.fract (q / m) < m * 1 :=
        (mul_lt_mul_left hm).mpr (Int.fract_lt_one _)
    _ = m := mul_one m

lemma pad2_length {n : ℤ} (h0 : 0 ≤ n) (h1 : n < 100) : (pad2 n).length = 2 := by
  interval_cases n <;> decide

lemma narrationPlan_start_nonneg :
    ∀ (pages : List Page) (t : ℚ), 0 ≤ t →
      (∀ p ∈ pages, 0 ≤ pageDuration p) →
      ∀ e ∈ narrationPlan pages t, 0 ≤ e.start := by
  intro pages
  induction pages with
  | nil => intro t _ _ e he; simp [narrationPlan] at he
  | cons p ps ih =>
    intro t ht hd e he
    simp only [narrationPlan, List.mem_append] at he
    rcases he with he | he
    · rcases hpa : p.narration_audio with _ | f <;> rw [hpa] at he
      · simp at he
      · dsimp only at he
        by_cases hc : (!(f = "") && p.audioExists) = true
        · rw [if_pos hc] at he
          simp only [List.mem_singleton] at he
          subst he
          exact ht
        · rw [if_neg hc] at he
          simp at he
    · have hdp : 0 ≤ pageDuration p := hd p (List.mem_cons_self _ _)
      exact ih (t + pageDuration p) (by linarith)
        (fun q hq => hd q (List.mem_cons_of_mem _ hq)) e he

/-! ## Claim C9 — Ken Burns parameter invariants -/

/-- C9 (counterexample): the claim "start/end x and y coordinates ...
centered at 0.5 with random jitter of at most ±0.05" fails on the code: for
the `pan_left` style (any duration, any jitter draws) the start x coordinate
is `0.5 + pan_offset = 0.6`, a fixed offset of `0.1 > 0.05` from center. -/
theorem kenBurns_jitter_counterexample :
    (generate_ken_burns 4 KBStyle.panLeft 0 0).start_x = 3/5 ∧
    ¬|(generate_ken_burns 4 KBStyle.panLeft 0 0).start_x - 1/2| ≤ 1/20 := by
  constructor
  · norm_num [generate_ken_burns]
  · norm_num [generate_ken_burns, abs_le]

/-- C9 (amended): for every duration, resolved style, and jitter draws in
`[-0.05, 0.05]`, the generated effect's zooms lie in `[1.0, 1.2]` and every
pan coordinate lies in `[0, 1]`; the coordinates stay within `0.1` of the
center `0.5` (jitter of at most `±0.05` for the zoom styles, a fixed pan
offset of `±0.1` for the pan styles). -/
theorem kenBurns_invariants (d : ℚ) (style : KBStyle) (jx jy : ℚ)
    (hx1 : -(1/20) ≤ jx) (hx2 : jx ≤ 1/20)
    (hy1 : -(1/20) ≤ jy) (hy2 : jy ≤ 1/20) :
    let e := generate_ken_burns d style jx jy
    (1 ≤ e.start_zoom ∧ e.start_zoom ≤ 6/5 ∧ 1 ≤ e.end_zoom ∧ e.end_zoom ≤ 6/5)
    ∧ (0 ≤ e.start_x ∧ e.start_x ≤ 1 ∧ 0 ≤ e.start_y ∧ e.start_y ≤ 1
        ∧ 0 ≤ e.end_x ∧ e.end_x ≤ 1 ∧ 0 ≤ e.end_y ∧ e.end_y ≤ 1)
    ∧ (|e.start_x - 1/2| ≤ 1/10 ∧ |e.start_y - 1/2| ≤ 1/10
        ∧ |e.end_x - 1/2| ≤ 1/10 ∧ |e.end_y - 1/2| ≤ 1/10) := by
  cases style <;>
    refine ⟨⟨?_, ?_, ?_, ?_⟩, ⟨?_, ?_, ?_, ?_, ?_, ?_, ?_, ?_⟩,
      ⟨?_, ?_, ?_, ?_⟩⟩ <;>
    simp only [generate_ken_burns, abs_le] <;>
    first
      | (constructor <;> linarith)
      | linarith

/-- C9 (witness): the amended invariants at `duration = 4`, style `zoom_in`,
jitters `(1/20, -(1/20))`. -/
theorem kenBurns_invariants_witness :
    let e := generate_ken_burns 4 KBStyle.zoomIn (1/20) (-(1/20))
    (1 ≤ e.start_zoom ∧ e.start_zoom ≤ 6/5 ∧ 1 ≤ e.end_zoom ∧ e.end_zoom ≤ 6/5)
    ∧ (0 ≤ e.start_x ∧ e.start_x ≤ 1 ∧ 0 ≤ e.start_y ∧ e.start_y ≤ 1
        ∧ 0 ≤ e.end_x ∧ e.end_x ≤ 1 ∧ 0 ≤ e.end_y ∧ e.end_y ≤ 1)
    ∧ (|e.start_x - 1/2| ≤ 1/10 ∧ |e.start_y - 1/2| ≤ 1/10
        ∧ |e.end_x - 1/2| ≤ 1/10 ∧ |e.end_y - 1/2| ≤ 1/10) :=
  kenBurns_invariants 4 KBStyle.zoomIn (1/20) (-(1/20))
    (by norm_num) (by norm_num) (by norm_num) (by norm_num)

/-! ## Claim C10 — `add_audio_tracks` keys on file existence -/

/-- C10: `add_audio_tracks` selects its behavior by on-disk existence: a
narration or music path that does not exist behaves exactly like `None` for
that argument, and when neither supplied file exists the call is the plain
video copy, which reports success unconditionally. -/
theorem addAudio_missing_eq_none (e : String → Bool) (p q : String)
    (np mp : Option String) (v1 v2 : ℚ) (ok : Bool) :
    (e p = false →
      add_audio_tracks e (some p) mp v1 v2 = add_audio_tracks e none mp v1 v2)
    ∧ (e q = false →
      add_audio_tracks e np (some q) v1 v2 = add_audio_tracks e np none v1 v2)
    ∧ (e p = false → e q = false →
      add_audio_tracks e (some p) (some q) v1 v2 = AudioAction.copyVideo
        ∧ audioSuccess AudioAction.copyVideo ok = true) := by
  refine ⟨fun hp => ?_, fun hq => ?_, fun hp hq => ⟨?_, rfl⟩⟩
  · simp [add_audio_tracks, hp]
  · cases np with
    | none => simp [add_audio_tracks, hq]
    | some r => cases hr : e r <;> simp [add_audio_tracks, hq, hr]
  · simp [add_audio_tracks, hp, hq]

/-- C10 (witness): with no file existing on disk, supplying both paths is
the plain copy action. -/
theorem addAudio_missing_eq_none_witness :
    add_audio_tracks (fun _ => false) (some "narr.aac") (some "music.mp3")
        (3/10) (3/20) = AudioAction.copyVideo
      ∧ audioSuccess AudioAction.copyVideo false = true :=
  (addAudio_missing_eq_none (fun _ => false) "narr.aac" "music.mp3"
    none none (3/10) (3/20) false).2.2 rfl rfl

/-! ## Claim C5 — narration delay computation -/

/-- Concrete page list for the delay-rounding counterexample: a first page
of `0.0015` seconds, then a page with an existing narration audio file. -/
def delayPages : List Page :=
  [⟨some (3/2000), "", none, true, false⟩,
   ⟨some 3, "hi", some "n.mp3", true, true⟩]

/-- C5 (counterexample): the spec's formula `round(startOffsetSeconds * 1000)`
does not match the code, which computes `int(startOffsetSeconds * 1000)`
(truncation).  For the narration entry at start offset `0.0015 s` the code
produces a delay of `1` ms while `round(1.5) = 2`. -/
theorem delay_round_counterexample :
    narrationPlan delayPages 0 = [⟨"n.mp3", 3/2000⟩]
    ∧ delayMs (3/2000) = 1
    ∧ pyRoundEven ((3/2000) * 1000) = 2
    ∧ (1 : ℤ) ≠ 2 := by
  refine ⟨?_, ?_, ?_, by decide⟩
  · simp [narrationPlan, delayPages, pageDuration, defaultPageDuration]
  · norm_num [delayMs, pyTrunc]
  · norm_num [pyRoundEven]

/-- C5 (amended): for every page list with non-negative durations, the delay
applied to a narration entry is `int(startOffsetSeconds * 1000)` — the
TRUNCATION of `startOffsetSeconds * 1000`, which on these non-negative
offsets is its floor, not its rounding — and the entry's `adelay` filter
fragment carries that same value in both channel slots. -/
theorem delay_truncation_both_channels (pages : List Page)
    (hd : ∀ p ∈ pages, 0 ≤ pageDuration p) (i : ℕ) (e : NarrEntry)
    (he : e ∈ narrationPlan pages 0) :
    delayMs e.start = ⌊e.start * 1000⌋
    ∧ narrationFilterPart i e =
        "[" ++ toString i ++ ":a]adelay=" ++ toString ⌊e.start * 1000⌋ ++ "|"
          ++ toString ⌊e.start * 1000⌋ ++ ",volume=1.0[a" ++ toString i ++ "]" := by
  have hs : 0 ≤ e.start :=
    narrationPlan_start_nonneg pages 0 le_rfl hd e he
  have hkey : delayMs e.start = ⌊e.start * 1000⌋ := by
    unfold delayMs pyTrunc
    rw [if_pos (by positivity)]
  exact ⟨hkey, by rw [narrationFilterPart, hkey]⟩

/-- C5 (witness): the amended statement evaluated on `delayPages`, whose
single narration entry starts at `0.0015 s` and receives delay `⌊1.5⌋ = 1`
in both channel slots. -/
theorem delay_truncation_both_channels_witness :
    delayMs ((3:ℚ)/2000) = ⌊((3:ℚ)/2000) * 1000⌋
    ∧ narrationFilterPart 0 ⟨"n.mp3", 3/2000⟩ =
        "[" ++ toString 0 ++ ":a]adelay=" ++ toString ⌊((3:ℚ)/2000) * 1000⌋ ++ "|"
          ++ toString ⌊((3:ℚ)/2000) * 1000⌋ ++ ",volume=1.0[a" ++ toString 0 ++ "]" :=
  delay_truncation_both_channels delayPages
    (by intro p hp; fin_cases hp <;> norm_num [pageDuration, defaultPageDuration])
    0 ⟨"n.mp3", 3/2000⟩
    (by simp [narrationPlan, delayPages, pageDuration, defaultPageDuration])

/-! ## Claim C8 — ASS timestamp format -/

/-- C8: for every non-negative time `t`, `format_time_ass t` has the fixed
structure `H:MM:SS.CC`: unpadded hours, minutes/seconds/centiseconds padded
to exactly 2 digits, minutes and seconds below 60, centiseconds below 100
and equal to the TRUNCATION (floor) of the fractional part of `t` scaled to
centiseconds. -/
theorem format_time_structure (t : ℚ) (ht : 0 ≤ t) :
    format_time_ass t =
      toString (hoursI t) ++ ":" ++ pad2 (minutesI t) ++ ":" ++ pad2 (secsI t)
        ++ "." ++ pad2 (centisI t)
    ∧ (pad2 (minutesI t)).length = 2
    ∧ (pad2 (secsI t)).length = 2
    ∧ (pad2 (centisI t)).length = 2
    ∧ (0 ≤ hoursI t)
    ∧ (0 ≤ minutesI t ∧ minutesI t < 60)
    ∧ (0 ≤ secsI t ∧ secsI t < 60)
    ∧ (0 ≤ centisI t ∧ centisI t < 100)
    ∧ centisI t = ⌊(t - ⌊t⌋) * 100⌋ := by
  have h3600 : (0:ℚ) < 3600 := by norm_num
  have h60 : (0:ℚ) < 60 := by norm_num
  have h1 : (0:ℚ) < 1 := by norm_num
  have hm0 : 0 ≤ minutesI t := by
    unfold minutesI
    exact Int.floor_nonneg.mpr (div_nonneg (fmodQ_nonneg t h3600) (by norm_num))
  have hm1 : minutesI t < 60 := by
    unfold minutesI
    refine Int.floor_lt.mpr ?_
    rw [div_lt_iff₀ h60]
    calc fmodQ t 3600 < 3600 := fmodQ_lt t h3600
      _ = ((60:ℤ):ℚ) * 60 := by norm_num
  have hsec : secsI t = ⌊fmodQ t 60⌋ := by
    unfold secsI pyTrunc
    rw [if_pos (fmodQ_nonneg t h60)]
  have hs0 : 0 ≤ secsI t := by
    rw [hsec]; exact Int.floor_nonneg.mpr (fmodQ_nonneg t h60)
  have hs1 : secsI t < 60 := by
    rw [hsec]
    refine Int.floor_lt.mpr ?_
    calc fmodQ t 60 < 60 := fmodQ_lt t h60
      _ = ((60:ℤ):ℚ) := by norm_num
  have hcen : centisI t = ⌊fmodQ t 1 * 100⌋ := by
    unfold centisI pyTrunc
    rw [if_pos (mul_nonneg (fmodQ_nonneg t h1) (by norm_num))]
  have hc0 : 0 ≤ centisI t := by
    rw [hcen]
    exact Int.floor_nonneg.mpr (mul_nonneg (fmodQ_nonneg t h1) (by norm_num))
  have hc1 : centisI t < 100 := by
    rw [hcen]
    refine Int.floor_lt.mpr ?_
    have := fmodQ_lt t h1
    push_cast
    nlinarith [fmodQ_nonneg t h1]
  have hfrac : fmodQ t 1 = t - ⌊t⌋ := by
    unfold fmodQ
    rw [div_one, one_mul]
  have hh0 : 0 ≤ hoursI t := by
    unfold hoursI
    exact Int.floor_nonneg.mpr (div_nonneg ht (by norm_num))
  refine ⟨rfl, pad2_length hm0 (by linarith), pad2_length hs0 (by linarith),
    pad2_length hc0 hc1, hh0, ⟨hm0, hm1⟩, ⟨hs0, hs1⟩, ⟨hc0, hc1⟩, ?_⟩
  rw [hcen, hfrac]

/-- C8 (witness): the structure theorem evaluated at `t = 3661.5 s`, where
`format_time_ass` yields `1:01:01.50`. -/
theorem format_time_structure_witness :
    format_time_ass (7323/2) =
      toString (hoursI (7323/2)) ++ ":" ++ pad2 (minutesI (7323/2)) ++ ":"
        ++ pad2 (secsI (7323/2)) ++ "." ++ pad2 (centisI (7323/2))
    ∧ (pad2 (minutesI (7323/2))).length = 2
    ∧ (pad2 (secsI (7323/2))).length = 2
    ∧ (pad2 (centisI (7323/2))).length = 2
    ∧ (0 ≤ hoursI (7323/2))
    ∧ (0 ≤ minutesI (7323/2) ∧ minutesI (7323/2) < 60)
    ∧ (0 ≤ secsI (7323/2) ∧ secsI (7323/2) < 60)
    ∧ (0 ≤ centisI (7323/2) ∧ centisI (7323/2) < 100)
    ∧ centisI (7323/2) = ⌊(((7323:ℚ)/2) - ⌊(7323:ℚ)/2⌋) * 100⌋ :=
  format_time_structure (7323/2) (by norm_num)

/-! ## Claim C6 — merge into two lines -/

/-- C6 (counterexample): when the greedy wrap yields more than 2 lines the
code does NOT split the wrapped-line list at its midpoint: it splits after
index `mid = len(lines) // 2`, i.e. the first output line takes `mid + 1`
wrapped lines.  For `"aaa bbb ccc ddd"` at width 3 the greedy wrap gives 4
lines and the code returns `"aaa bbb ccc\\Nddd"` (3 lines + 1), not the
midpoint split `"aaa bbb\\Nccc ddd"` (2 + 2). -/
theorem wrap_midpoint_counterexample :
    2 < (wrapLines (pyWords "aaa bbb ccc ddd".data) 3).length ∧
    wrapTextL "aaa bbb ccc ddd".data 3 ≠ midpointWrapSpec "aaa bbb ccc ddd".data 3 := by
  decide

/-- C6 (amended): for every input whose greedy wrap yields more than 2
lines, `wrap_text` returns exactly 2 lines separated by one `\\N` marker,
formed by splitting the wrapped-line list AFTER index `len // 2`: the first
output line joins wrapped lines `0 .. len//2` (that is `len//2 + 1` of
them), the second joins the remaining `len - (len//2 + 1) ≥ 1` lines. -/
theorem wrap_two_line_merge (s : List Char) (mc : ℕ)
    (h : 2 < (wrapLines (pyWords s) mc).length) :
    wrapTextL s mc =
      joinSpace ((wrapLines (pyWords s) mc).take ((wrapLines (pyWords s) mc).length / 2 + 1))
        ++ '\\' :: 'N' ::
          joinSpace ((wrapLines (pyWords s) mc).drop ((wrapLines (pyWords s) mc).length / 2 + 1))
    ∧ ((wrapLines (pyWords s) mc).drop ((wrapLines (pyWords s) mc).length / 2 + 1)).length
        = (wrapLines (pyWords s) mc).length - ((wrapLines (pyWords s) mc).length / 2 + 1)
    ∧ 1 ≤ (wrapLines (pyWords s) mc).length - ((wrapLines (pyWords s) mc).length / 2 + 1) := by
  refine ⟨?_, by simp, by omega⟩
  have h2 : wrapTextL s mc =
      joinN [joinSpace ((wrapLines (pyWords s) mc).take ((wrapLines (pyWords s) mc).length / 2 + 1)),
             joinSpace ((wrapLines (pyWords s) mc).drop ((wrapLines (pyWords s) mc).length / 2 + 1))] := by
    simp only [wrapTextL]
    rw [if_pos h]
  rw [h2]
  rfl

/-- C6 (witness): the amended merge rule on `"aaa bbb ccc ddd"` at width 3
(4 greedy lines, split 3 + 1). -/
theorem wrap_two_line_merge_witness :
    wrapTextL "aaa bbb ccc ddd".data 3 =
      joinSpace ((wrapLines (pyWords "aaa bbb ccc ddd".data) 3).take
          ((wrapLines (pyWords "aaa bbb ccc ddd".data) 3).length / 2 + 1))
        ++ '\\' :: 'N' ::
          joinSpace ((wrapLines (pyWords "aaa bbb ccc ddd".data) 3).drop
            ((wrapLines (pyWords "aaa bbb ccc ddd".data) 3).length / 2 + 1))
    ∧ ((wrapLines (pyWords "aaa bbb ccc ddd".data) 3).drop
          ((wrapLines (pyWords "aaa bbb ccc ddd".data) 3).length / 2 + 1)).length
        = (wrapLines (pyWords "aaa bbb ccc ddd".data) 3).length
          - ((wrapLines (pyWords "aaa bbb ccc ddd".data) 3).length / 2 + 1)
    ∧ 1 ≤ (wrapLines (pyWords "aaa bbb ccc ddd".data) 3).length
          - ((wrapLines (pyWords "aaa bbb ccc ddd".data) 3).length / 2 + 1) :=
  wrap_two_line_merge "aaa bbb ccc ddd".data 3 (by decide)

/-! ## Claim C7 — idempotence of `wrap_text`

Supporting lemmas: words produced by `str.split()` are non-empty and
whitespace-free; splitting a space-join of such words recovers them; the
greedy fold only ever appends to `lines`, and when it never flushes a line
the final `current_line` holds every word in order. -/

lemma splitWS_append_nonws :
    ∀ (w : Word) (rest : List Char) (acc : Word),
      (∀ c ∈ w, c.isWhitespace = false) →
      splitWS (w ++ rest) acc = splitWS rest (w.reverse ++ acc) := by
  intro w
  induction w with
  | nil => intro rest acc _; simp
  | cons c cs ih =>
    intro rest acc hw
    have hc : c.isWhitespace = false := hw c (List.mem_cons_self _ _)
    simp only [List.cons_append, splitWS, hc, Bool.false_eq_true, if_false]
    rw [show cs.append rest = cs ++ rest from rfl,
      ih rest (c :: acc) (fun d hd => hw d (List.mem_cons_of_mem _ hd))]
    simp

lemma splitWS_cons_space (rest : List Char) (acc : Word) :
    splitWS (' ' :: rest) acc =
      if acc.isEmpty then splitWS rest [] else acc.reverse :: splitWS rest [] := by
  simp [splitWS]

lemma splitWS_good :
    ∀ (cs : List Char) (acc : Word),
      (∀ c ∈ acc, c.isWhitespace = false) →
      ∀ w ∈ splitWS cs acc, w ≠ [] ∧ ∀ c ∈ w, c.isWhitespace = false := by
  intro cs
  induction cs with
  | nil =>
    intro acc hacc w hw
    unfold splitWS at hw
    by_cases he : acc.isEmpty
    · rw [if_pos he] at hw; simp at hw
    · rw [if_neg he] at hw
      simp only [List.mem_singleton] at hw
      subst hw
      refine ⟨?_, fun c hc => hacc c (List.mem_reverse.mp hc)⟩
      simp only [ne_eq, List.reverse_eq_nil_iff]
      exact fun h => he (by simp [h])
  | cons c cs ih =>
    intro acc hacc w hw
    unfold splitWS at hw
    by_cases hcw : c.isWhitespace
    · rw [if_pos hcw] at hw
      by_cases he : acc.isEmpty
      · rw [if_pos he] at hw
        exact ih [] (by simp) w hw
      · rw [if_neg he] at hw
        rcases List.mem_cons.mp hw with h | h
        · subst h
          refine ⟨?_, fun d hd => hacc d (List.mem_reverse.mp hd)⟩
          simp only [ne_eq, List.reverse_eq_nil_iff]
          exact fun h => he (by simp [h])
        · exact ih [] (by simp) w h
    · rw [if_neg hcw] at hw
      refine ih (c :: acc) ?_ w hw
      intro d hd
      rcases List.mem_cons.mp hd with h | h
      · subst h; simpa using hcw
      · exact hacc d h

lemma pyWords_good (s : List Char) :
    ∀ w ∈ pyWords s, w ≠ [] ∧ ∀ c ∈ w, c.isWhitespace = false :=
  splitWS_good s [] (by simp)

lemma pyWords_joinSpace :
    ∀ (ws : List Word),
      (∀ w ∈ ws, w ≠ [] ∧ ∀ c ∈ w, c.isWhitespace = false) →
      pyWords (joinSpace ws) = ws := by
  intro ws
  induction ws with
  | nil => intro _; rfl
  | cons w rest ih =>
    intro hg
    have hw := hg w (List.mem_cons_self _ _)
    rcases rest with _ | ⟨x, xs⟩
    · show pyWords w = [w]
      unfold pyWords
      rw [show w = w ++ [] by simp, splitWS_append_nonws w [] [] hw.2]
      unfold splitWS
      rw [if_neg (by simp [List.isEmpty_iff, hw.1])]
      simp
    · show pyWords (w ++ ' ' :: joinSpace (x :: xs)) = w :: x :: xs
      unfold pyWords
      rw [splitWS_append_nonws w (' ' :: joinSpace (x :: xs)) [] hw.2,
        splitWS_cons_space]
      rw [if_neg (by simp [List.isEmpty_iff, hw.1])]
      rw [show splitWS (joinSpace (x :: xs)) [] = pyWords (joinSpace (x :: xs)) from rfl]
      rw [ih (fun u hu => hg u (List.mem_cons_of_mem _ hu))]
      simp

lemma wrapStep_lines_grow (mc : ℕ) (st : WrapSt) (w : Word) :
    ∃ tl, (wrapStep mc st w).lines = st.lines ++ tl := by
  unfold wrapStep
  by_cases hb : st.length + w.length + (if st.current.isEmpty then 0 else 1) ≤ mc
  · exact ⟨[], by rw [if_pos hb]; simp⟩
  · exact ⟨_, by rw [if_neg hb]⟩

lemma foldl_lines_grow (mc : ℕ) :
    ∀ (ws : List Word) (st : WrapSt),
      ∃ tl, (List.foldl (wrapStep mc) st ws).lines = st.lines ++ tl := by
  intro ws
  induction ws with
  | nil => intro st; exact ⟨[], by simp⟩
  | cons w rest ih =>
    intro st
    obtain ⟨t1, h1⟩ := wrapStep_lines_grow mc st w
    obtain ⟨t2, h2⟩ := ih (wrapStep mc st w)
    exact ⟨t1 ++ t2, by rw [List.foldl_cons, h2, h1, List.append_assoc]⟩

lemma foldl_current_of_lines_eq (mc : ℕ) :
    ∀ (ws : List Word) (st : WrapSt),
      (List.foldl (wrapStep mc) st ws).lines = st.lines →
      (List.foldl (wrapStep mc) st ws).current = st.current ++ ws := by
  intro ws
  induction ws with
  | nil => intro st _; simp
  | cons w rest ih =>
    intro st h
    rw [List.foldl_cons] at h ⊢
    obtain ⟨t1, h1⟩ := wrapStep_lines_grow mc st w
    obtain ⟨t2, h2⟩ := foldl_lines_grow mc rest (wrapStep mc st w)
    have hlen := congrArg List.length h
    rw [h2, h1] at hlen
    simp only [List.length_append] at hlen
    have ht1 : t1 = [] := List.length_eq_zero.mp (by omega)
    have hstep : (wrapStep mc st w).lines = st.lines := by
      rw [h1, ht1, List.append_nil]
    have hcur : (wrapStep mc st w).current = st.current ++ [w] := by
      unfold wrapStep at hstep ⊢
      by_cases hb : st.length + w.length + (if st.current.isEmpty then 0 else 1) ≤ mc
      · rw [if_pos hb]
      · rw [if_neg hb] at hstep ⊢
        by_cases hce : st.current.isEmpty
        · have : st.current = [] := List.isEmpty_iff.mp hce
          simp [this]
        · exfalso
          have := congrArg List.length hstep
          simp [hce] at this
    rw [ih (wrapStep mc st w) (by rw [hstep]; exact h), hcur, List.append_assoc]
    rfl

lemma foldl_current_ne (mc : ℕ) :
    ∀ (ws : List Word) (st : WrapSt), ws ≠ [] →
      (List.foldl (wrapStep mc) st ws).current ≠ [] := by
  intro ws
  induction ws with
  | nil => intro st h; exact absurd rfl h
  | cons w rest ih =>
    intro st _
    rw [List.foldl_cons]
    rcases rest with _ | ⟨x, xs⟩
    · simp only [List.foldl_nil]
      unfold wrapStep
      by_cases hb : st.length + w.length + (if st.current.isEmpty then 0 else 1) ≤ mc
      · rw [if_pos hb]; simp
      · rw [if_neg hb]; simp
    · exact ih _ (by simp)

lemma wrapLines_of_length_le_one (ws : List Word) (mc : ℕ)
    (h : (wrapLines ws mc).length ≤ 1) :
    wrapLines ws mc = if ws.isEmpty then [] else [joinSpace ws] := by
  rcases ws with _ | ⟨w, rest⟩
  · simp [wrapLines]
  · have hne : (w :: rest : List Word) ≠ [] := by simp
    have hcur : (List.foldl (wrapStep mc) ⟨[], [], 0⟩ (w :: rest)).current ≠ [] :=
      foldl_current_ne mc (w :: rest) ⟨[], [], 0⟩ hne
    have hci : (List.foldl (wrapStep mc) ⟨[], [], 0⟩ (w :: rest)).current.isEmpty = false := by
      simpa [List.isEmpty_iff] using hcur
    simp only [wrapLines, hci, Bool.false_eq_true, if_false] at h ⊢
    have hlines : (List.foldl (wrapStep mc) ⟨[], [], 0⟩ (w :: rest)).lines = [] := by
      simp only [List.length_append, List.length_singleton] at h
      exact List.length_eq_zero.mp (by omega)
    have hcall := foldl_current_of_lines_eq mc (w :: rest) ⟨[], [], 0⟩ (by rw [hlines])
    rw [hlines, hcall]
    simp

lemma wrapTextL_idempotent_of_single_line (s : List Char) (mc : ℕ)
    (h : (wrapLines (pyWords s) mc).length ≤ 1) :
    wrapTextL (wrapTextL s mc) mc = wrapTextL s mc := by
  have hsingle := wrapLines_of_length_le_one (pyWords s) mc h
  rcases hn : pyWords s with _ | ⟨w, rest⟩
  · rw [hn] at hsingle
    simp only [List.isEmpty_nil, if_true] at hsingle
    have h1 : wrapTextL s mc = [] := by
      simp [wrapTextL, hn, hsingle, joinN]
    rw [h1]
    rfl
  · rw [hn] at hsingle
    simp only [List.isEmpty_cons, Bool.false_eq_true, if_false] at hsingle
    have h1 : wrapTextL s mc = joinSpace (w :: rest) := by
      simp [wrapTextL, hn, hsingle, joinN]
    rw [h1]
    have hgood : ∀ u ∈ (w :: rest), u ≠ [] ∧ ∀ c ∈ u, c.isWhitespace = false := by
      rw [← hn]; exact pyWords_good s
    have hpw : pyWords (joinSpace (w :: rest)) = w :: rest :=
      pyWords_joinSpace _ hgood
    simp [wrapTextL, hpw, hsingle, joinN]


/-- C7 (counterexample): `wrap_text` is NOT idempotent.  For the 45-character
input below (words of lengths 20, 21 and 2, `max_chars = 42`) the first wrap
gives a full 42-character first line plus `"cc"`; re-wrapping glues
`"bbb...b\Ncc"` into one 25-character pseudo-word, which no longer fits
after the first word, so the second wrap inserts a new break and changes
both the content and the number of `\N`-separated lines (2 to 3). -/
theorem wrap_not_idempotent_counterexample :
    wrap_text (wrap_text "aaaaaaaaaaaaaaaaaaaa bbbbbbbbbbbbbbbbbbbbb cc")
      ≠ wrap_text "aaaaaaaaaaaaaaaaaaaa bbbbbbbbbbbbbbbbbbbbb cc" := by
  decide

/-- C7 (amended): `wrap_text` is idempotent on every input whose greedy wrap
produces at most one line — i.e. whenever the wrapped result contains no
`\N` marker, re-wrapping it changes neither line count nor content.  (When
the result does contain the marker, idempotence can fail, as the
counterexample shows.) -/
theorem wrap_text_idempotent_single_line (s : String) (mc : ℕ)
    (h : (wrapLines (pyWords s.data) mc).length ≤ 1) :
    wrap_text (wrap_text s mc) mc = wrap_text s mc := by
  unfold wrap_text
  exact congrArg String.mk (wrapTextL_idempotent_of_single_line s.data mc h)

/-- C7 (witness): re-wrapping the single-line wrap of `"hello world"` at the
default width 42 returns it unchanged. -/
theorem wrap_text_idempotent_single_line_witness :
    wrap_text (wrap_text "hello world" 42) 42 = wrap_text "hello world" 42 :=
  wrap_text_idempotent_single_line "hello world" 42 (by decide)

/-! ## Claim C1 — dialogue events and the cumulative timeline -/

lemma durBefore_cons_zero (p : Page) (ps : List Page) :
    durBefore (p :: ps) 0 = 0 := by
  simp [durBefore]

lemma durBefore_cons_succ (p : Page) (ps : List Page) (n : ℕ) :
    durBefore (p :: ps) (n + 1) = pageDuration p + durBefore ps n := by
  simp [durBefore, List.take_succ_cons]

lemma collectDialogues_eq (pages : List Page) :
    ∀ t : ℚ, (∀ p ∈ pages, p.renderOk = true) →
    collectDialogues pages t =
      (List.range pages.length).filterMap fun n =>
        match pages.get? n with
        | some p =>
          if p.narration = "" then none
          else some ⟨t + durBefore pages n,
                     t + durBefore pages n + pageDuration p, p.narration⟩
        | none => none := by
  induction pages with
  | nil => intro t _; simp [collectDialogues]
  | cons p ps ih =>
    intro t h
    have hp : p.renderOk = true := h p (List.mem_cons_self _ _)
    have hps : ∀ q ∈ ps, q.renderOk = true :=
      fun q hq => h q (List.mem_cons_of_mem _ hq)
    simp only [collectDialogues, hp, if_true]
    rw [ih (t + pageDuration p) hps]
    rw [List.length_cons, List.range_succ_eq_map, List.filterMap_cons,
      List.filterMap_map]
    have htail :
        List.filterMap
          ((fun n =>
            match (p :: ps).get? n with
            | some q =>
              if q.narration = "" then none
              else some (⟨t + durBefore (p :: ps) n,
                t + durBefore (p :: ps) n + pageDuration q, q.narration⟩ : Dialogue)
            | none => none) ∘ Nat.succ) (List.range ps.length) =
        List.filterMap
          (fun n =>
            match ps.get? n with
            | some q =>
              if q.narration = "" then none
              else some (⟨t + pageDuration p + durBefore ps n,
                t + pageDuration p + durBefore ps n + pageDuration q, q.narration⟩ : Dialogue)
            | none => none) (List.range ps.length) := by
      refine List.filterMap_congr (fun n _ => ?_)
      simp only [Function.comp_apply, List.get?_cons_succ, durBefore_cons_succ]
      cases ps.get? n with
      | none => rfl
      | some q =>
        by_cases hq : q.narration = "" <;> simp [hq, add_assoc]
    rw [htail]
    simp only [List.get?_cons_zero, durBefore_cons_zero, add_zero]
    by_cases hnar : p.narration = ""
    · simp [hnar]
    · simp [hnar]

/-- C1: when every per-page clip render succeeds, the dialogue events
collected by `build_manga_video` are exactly the spec's DialogueEvents: one
per page with non-empty narration text, in page order, the event of page `n`
starting at the sum of the durations of pages `0..n-1` (with the configured
default for a page without one) and ending one page duration later. -/
theorem dialogue_timeline_spec (pages : List Page)
    (h : ∀ p ∈ pages, p.renderOk = true) :
    collectDialogues pages 0 = dialogueEventsSpec pages := by
  rw [collectDialogues_eq pages 0 h]
  unfold dialogueEventsSpec
  refine List.filterMap_congr (fun n _ => ?_)
  cases pages.get? n with
  | none => rfl
  | some q => by_cases hq : q.narration = "" <;> simp [hq]

/-- Scenario A of the spec: 3 pages with durations 4, 5, 3 and narration on
pages 1 and 3 only. -/
def scenarioPages : List Page :=
  [⟨some 4, "intro", none, true, false⟩,
   ⟨some 5, "", none, true, false⟩,
   ⟨some 3, "outro", none, true, false⟩]

/-- C1 (witness): Scenario A — the collected events are
`[{0,4,intro}, {9,12,outro}]` on both sides. -/
theorem dialogue_timeline_spec_witness :
    collectDialogues scenarioPages 0 = dialogueEventsSpec scenarioPages :=
  dialogue_timeline_spec scenarioPages (by decide)

/-! ## Claim C2 — narration offsets under render failures -/

/-- The failing input for C2: page 0 (duration 5, no narration) fails to
render, page 1 (duration 3, narration `"hi"`, existing audio `p1.mp3`)
renders. -/
def failPages : List Page :=
  [⟨some 5, "", none, false, false⟩,
   ⟨some 3, "hi", some "p1.mp3", true, true⟩]

/-- C2 (code bug): `create_narration_track` advances its clock by EVERY
page's duration, while the video timeline and the dialogue events skip pages
whose render failed.  On `failPages` the narration file is planned at offset
5 s although the page it belongs to starts at 0 s in the assembled video
(and its dialogue event reads `{0, 3, "hi"}`). -/
theorem narration_offset_misaligned :
    narrationPlan failPages 0 = [⟨"p1.mp3", 5⟩]
    ∧ collectDialogues failPages 0 = [⟨0, 3, "hi"⟩]
    ∧ (5 : ℚ) ≠ 0 := by
  refine ⟨?_, ?_, by norm_num⟩
  · simp [narrationPlan, failPages, pageDuration, defaultPageDuration]
  · simp [collectDialogues, failPages, pageDuration, defaultPageDuration]

/-! ## Claims C3/C4 — cleanup policy and graceful degradation -/

lemma preMix_removedOnSuccess (pages : List Page) (env : BuildEnv) :
    ∀ a ∈ preMixFiles pages env, removedOnSuccess a = true := by
  intro a ha
  simp only [preMixFiles, List.mem_append] at ha
  rcases ha with ((((ha | ha) | ha) | ha) | ha) | ha
  · simp only [pageAudioFiles, List.mem_map] at ha
    obtain ⟨x, -, rfl⟩ := ha
    rfl
  · simp only [clipFiles, List.mem_map] at ha
    obtain ⟨x, -, rfl⟩ := ha
    rfl
  · simp only [List.mem_singleton] at ha; subst ha; rfl
  · split at ha
    · simp only [List.mem_singleton] at ha; subst ha; rfl
    · simp at ha
  · split at ha
    · simp only [List.mem_singleton] at ha; subst ha; rfl
    · simp at ha
  · split at ha
    · simp only [List.mem_singleton] at ha; subst ha; rfl
    · simp at ha

/-- C4: whenever the concatenation stage succeeds (some clip rendered and
the concat call returned success), `build_manga_video` returns the final
artifact path — never `None` — for every outcome of the caption, narration
and mix stages, and the final video file exists at return (on mix failure it
is the renamed pre-mix video). -/
theorem build_returns_artifact (pages : List Page) (env : BuildEnv) (m : Bool)
    (hclips : (clipFiles pages).isEmpty = false) (hconcat : env.concatOk = true) :
    (buildResult pages env m).1 = some Artifact.finalVideo
    ∧ Artifact.finalVideo ∈ (buildResult pages env m).2 := by
  unfold buildResult
  simp only [hclips, hconcat, Bool.not_true, Bool.false_eq_true, if_false]
  by_cases hmix : mixCallOk pages env m = true
  · rw [if_pos hmix]
    exact ⟨rfl, by simp [List.mem_filter, removedOnSuccess]⟩
  · rw [if_neg hmix]
    exact ⟨rfl, by simp [List.mem_filter, removedOnFail]⟩

/-- C3 (amended): on the successful-mix exit path every intermediate
artifact is deleted and only the final video remains; on the mix-failure
exit path everything is deleted EXCEPT the combined narration track and the
per-page narration audio files (which that path's cleanup list omits); on
the two fatal exit paths (zero clips, concat failure) no cleanup runs at
all — the rendered clips and per-page narration files are left on disk. -/
theorem cleanup_policy (pages : List Page) (env : BuildEnv) (m : Bool) :
    ((clipFiles pages).isEmpty = false → env.concatOk = true →
      mixCallOk pages env m = true →
      (buildResult pages env m).2 = [Artifact.finalVideo])
    ∧ ((clipFiles pages).isEmpty = false → env.concatOk = true →
      mixCallOk pages env m = false →
      ∀ a ∈ (buildResult pages env m).2,
        a = Artifact.finalVideo ∨ a = Artifact.narrTrack
          ∨ ∃ i, a = Artifact.pageAudio i)
    ∧ ((clipFiles pages).isEmpty = true ∨ env.concatOk = false →
      (buildResult pages env m).2 = pageAudioFiles pages ++ clipFiles pages) := by
  refine ⟨?_, ?_, ?_⟩
  · intro hclips hconcat hmix
    unfold buildResult
    simp only [hclips, hconcat, Bool.not_true, Bool.false_eq_true, if_false,
      hmix, if_true]
    rw [List.filter_append]
    have h1 : (preMixFiles pages env).filter (fun a => !removedOnSuccess a) = [] := by
      rw [List.filter_eq_nil_iff]
      intro a ha
      simp [preMix_removedOnSuccess pages env a ha]
    rw [h1]
    rfl
  · intro hclips hconcat hmix
    unfold buildResult
    simp only [hclips, hconcat, Bool.not_true, Bool.false_eq_true, if_false,
      hmix, if_true]
    intro a ha
    simp only [List.mem_filter, List.mem_append, List.mem_singleton] at ha
    obtain ⟨_, hkeep⟩ := ha
    cases a with
    | clip i => simp [removedOnFail] at hkeep
    | concatTemp => simp [removedOnFail] at hkeep
    | subsFile => simp [removedOnFail] at hkeep
    | subsVideo => simp [removedOnFail] at hkeep
    | narrTrack => exact Or.inr (Or.inl rfl)
    | pageAudio i => exact Or.inr (Or.inr ⟨i, rfl⟩)
    | finalVideo => exact Or.inl rfl
  · intro hfatal
    unfold buildResult
    rcases hfatal with hclips | hconcat
    · rw [if_pos hclips]
    · by_cases hclips : (clipFiles pages).isEmpty = true
      · rw [if_pos hclips]
      · rw [if_neg hclips, if_pos (by simp [hconcat])]

/-- One successfully rendered page, used for the cleanup counterexample. -/
def cleanPages : List Page := [⟨none, "", none, true, false⟩]

/-- C3 (counterexample): on the concat-failure exit path the build returns
`None` with the rendered clip file still on disk — an intermediate artifact
created during the build is NOT deleted before the function returns. -/
theorem cleanup_counterexample :
    (buildResult cleanPages ⟨false, true, true, true⟩ false).1 = none
    ∧ (buildResult cleanPages ⟨false, true, true, true⟩ false).2 = [Artifact.clip 0]
    ∧ Artifact.clip 0 ≠ Artifact.finalVideo := by
  refine ⟨?_, ?_, by decide⟩ <;>
    simp [buildResult, cleanPages, clipFiles, pageAudioFiles, audioTruthy,
      List.enum]

/-- A one-page list whose single page renders successfully, used by the C3
and C4 witnesses. -/
def okPages : List Page := [⟨none, "x", none, true, false⟩]

/-- C4 (witness): with one rendered page, concat success and a failing final
mix (music supplied, `mixOk = false`), the build still returns the final
artifact and the file exists — the renamed pre-mix video. -/
theorem build_returns_artifact_witness :
    (buildResult okPages ⟨true, false, false, false⟩ true).1
        = some Artifact.finalVideo
    ∧ Artifact.finalVideo ∈ (buildResult okPages ⟨true, false, false, false⟩ true).2 :=
  build_returns_artifact okPages ⟨true, false, false, false⟩ true (by decide) rfl

/-- C3 (witness): on a fully successful build of `okPages` only the final
video remains on disk. -/
theorem cleanup_policy_witness :
    (buildResult okPages ⟨true, true, true, true⟩ false).2 = [Artifact.finalVideo] :=
  (cleanup_policy okPages ⟨true, true, true, true⟩ false).1 (by decide) rfl (by decide)
